import Mathlib

/-!
Verification of the `claude-tree` instruction-inventory scripts.

This file gives a shallow embedding of the three scripts of the repository
and proves properties of the embedded definitions:

* `tree.py` — filesystem walk (`build_tree`) and pruning
  (`filter_tree_to_agent_docs`) of a tree of agent instruction documents;
* `merge_edges.py` — per-file schema validation (`validate_edge_file`) and
  merging (`merge_edge_files`, `main`) of edge-record JSON files;
* `visualize.py` — cumulative token aggregation (`getCumulativeTokens`) and
  token-band threshold handling (`updateThresholds`, `getTokenColor`).

Filesystem and JSON inputs are modelled as inductive data (`FS`, `Json`,
`FileData`); the opaque tokenizer `count_tokens` is modelled by a token
count carried on each file; reading and JSON parsing are modelled by the
outcome they produce (`FileData.readError`, `FileData.parseError`,
`FileData.parsed`).  Python's `sorted` on strings and JavaScript string
operations are embedded by explicit character-level functions so that every
definition evaluates inside the kernel.
-/

namespace ClaudeTree

/-! ## String utilities

Character-level embeddings of the string operations the scripts use:
lexicographic comparison by code point (Python `sorted` on names,
JavaScript string order), `split('/')`, `toLowerCase`, and a
leading-character test.  All are structurally recursive so they reduce
during kernel evaluation. -/

/-- Lexicographic code-point comparison of character lists. -/
def strLeAux : List Char → List Char → Bool
  | [], _ => true
  | _ :: _, [] => false
  | x :: xs, y :: ys =>
    if x.val < y.val then true
    else if y.val < x.val then false
    else strLeAux xs ys

/-- `a ≤ b` in code-point lexicographic order, as used by Python `sorted`
on file names. -/
def strLe (a b : String) : Bool := strLeAux a.toList b.toList

/-- Insert `x` into `l` before the first element whose key is not below
`x`'s key (one step of insertion sort by a string key). -/
def insertBy {α : Type} (key : α → String) (x : α) : List α → List α
  | [] => [x]
  | y :: ys => if strLe (key x) (key y) then x :: y :: ys else y :: insertBy key x ys

/-- Sort a list by a string key; embeds Python `sorted(...)` over names
(names in one directory are distinct, so any correct sort agrees). -/
def sortBy {α : Type} (key : α → String) : List α → List α
  | [] => []
  | x :: xs => insertBy key x (sortBy key xs)

theorem insertBy_perm {α : Type} (key : α → String) (x : α) (l : List α) :
    List.Perm (insertBy key x l) (x :: l) := by
  induction l with
  | nil => simp [insertBy]
  | cons y ys ih =>
    simp only [insertBy]
    split
    · exact List.Perm.refl _
    · exact List.Perm.trans (List.Perm.cons y ih) (List.Perm.swap x y ys)

theorem sortBy_perm {α : Type} (key : α → String) (l : List α) :
    List.Perm (sortBy key l) l := by
  induction l with
  | nil => exact List.Perm.refl _
  | cons x xs ih =>
    exact List.Perm.trans (insertBy_perm key x (sortBy key xs)) (List.Perm.cons x ih)

theorem sizeOf_insertBy {α : Type} [SizeOf α] (key : α → String) (x : α) (l : List α) :
    sizeOf (insertBy key x l) = 1 + sizeOf x + sizeOf l := by
  induction l with
  | nil => simp [insertBy]
  | cons y ys ih =>
    simp only [insertBy]
    split
    all_goals simp only [List.cons.sizeOf_spec, ih]
    all_goals omega

theorem sizeOf_sortBy {α : Type} [SizeOf α] (key : α → String) (l : List α) :
    sizeOf (sortBy key l) = sizeOf l := by
  induction l with
  | nil => rfl
  | cons x xs ih =>
    simp only [sortBy, sizeOf_insertBy, List.cons.sizeOf_spec, ih]

/-- `s.split('/')` of JavaScript, and the corresponding Python behaviour:
split a string at every occurrence of the separator character.  The result
is never empty (an input without the separator yields a one-element list,
the empty string yields `[""]`). -/
def splitOnCharAux (c : Char) : List Char → List Char → List String
  | [], acc => [String.mk acc.reverse]
  | x :: xs, acc =>
    if x = c then String.mk acc.reverse :: splitOnCharAux c xs []
    else splitOnCharAux c xs (x :: acc)

def splitOnChar (c : Char) (s : String) : List String := splitOnCharAux c s.toList []

/-- JavaScript `toLowerCase` / Python `lower` restricted to what the
scripts compare (ASCII file names). -/
def lowerStr (s : String) : String := String.mk (s.toList.map Char.toLower)

/-- `name.startswith(".")` of Python: the first character is a dot. -/
def startsWithDot (s : String) : Bool :=
  match s.toList with
  | [] => false
  | c :: _ => c = '.'

/-! ## `tree.py`: data and constants -/

/-- `AGENT_DOC_PATTERNS` of `tree.py` (membership is what matters; the
Python value is a set). -/
def AGENT_DOC_PATTERNS : List String :=
  ["CLAUDE.md", "AGENTS.md", "claude.md", "agents.md"]

/-- `SKIP_DIRS` of `tree.py`. -/
def SKIP_DIRS : List String :=
  ["node_modules", ".git", "__pycache__", ".venv", "venv", ".tox", "dist",
   "build", ".next", ".nuxt", ".cache", "coverage", ".nyc_output", "target",
   ".idea", ".vscode", ".claude", "claude-tree"]

/-- `SKIP_EXTENSIONS` of `tree.py`. -/
def SKIP_EXTENSIONS : List String :=
  [".png", ".jpg", ".jpeg", ".gif", ".ico", ".svg",
   ".woff", ".woff2", ".ttf", ".eot",
   ".pdf", ".zip", ".tar", ".gz", ".rar",
   ".exe", ".dll", ".so", ".dylib",
   ".pyc", ".pyo", ".class",
   ".db", ".sqlite", ".sqlite3",
   ".lock", ".sum"]

/-- `is_agent_doc` of `tree.py`. -/
def is_agent_doc (filename : String) : Bool := AGENT_DOC_PATTERNS.contains filename

/-- The extension part of `os.path.splitext`: the suffix from the last dot
of the name, where the dots leading the base name do not count (so
`".gitignore"` has no extension, `"a.b.c"` has extension `".c"`, and
`"foo."` has extension `"."`). -/
def splitextExt (s : String) : String :=
  let cs := s.toList
  let rest := cs.dropWhile (fun c => c = '.')
  if rest.contains '.' then
    String.mk ('.' :: (rest.reverse.takeWhile (fun c => ¬ (c = '.'))).reverse)
  else ""

/-- `should_skip_file` of `tree.py`: lowercase the name, then test the
`splitext` extension against `SKIP_EXTENSIONS`. -/
def should_skip_file (filename : String) : Bool :=
  SKIP_EXTENSIONS.contains (splitextExt (lowerStr filename))

/-- A filesystem snapshot.  A file carries the token count the opaque
tokenizer `count_tokens` would report for its content, and a `readOk` flag
(`False` models a read failure of `read_text`); a directory carries a
`readable` flag (`False` models a `PermissionError` from `os.listdir`). -/
inductive FS where
  | dir (name : String) (readable : Bool) (entries : List FS)
  | file (name : String) (tokens : Nat) (readOk : Bool)

def FS.nameOf : FS → String
  | .dir n _ _ => n
  | .file n _ _ => n

/-- The node dictionaries produced by `tree.py`.  A file node carries
`isAgentDoc` and `tokens` exactly when the Python dict has those keys
(they are added only for agent docs). -/
inductive Node where
  | file (name path : String) (isAgentDoc : Bool) (tokens : Option Nat)
  | dir (name path : String) (children : List Node)

def Node.childrenOf : Node → List Node
  | .file _ _ _ _ => []
  | .dir _ _ cs => cs

/-- `str(Path(rel_path) / entry) if rel_path else entry` of
`build_tree.process_directory`: `pathlib` drops a leading `"."`, so
joining onto the root path `"."` yields the bare entry name. -/
def relJoin (rel entry : String) : String :=
  if rel = "" then entry
  else if rel = "." then entry
  else rel ++ "/" ++ entry

mutual

/-- The body of `build_tree.process_directory` of `tree.py` applied to one
directory: list the entries (empty on a permission error), sort them by
name, and process each in order. -/
def process_dir (rootName : String) (n : String) (readable : Bool)
    (sub : List FS) (rel : String) : Node :=
  if readable then
    Node.dir (if n = "" then rootName else n) rel
      (process_entries rootName rel (sortBy FS.nameOf sub))
  else Node.dir (if n = "" then rootName else n) rel []
termination_by 1 + sizeOf sub
decreasing_by
  simp_wf
  rw [sizeOf_sortBy]
  omega

/-- The entry loop of `build_tree.process_directory`: skip excluded and
hidden directories, drop childless directories, skip excluded file
extensions, and mark agent docs with their token count (0 when the read
fails). -/
def process_entries (rootName : String) (rel : String) : List FS → List Node
  | [] => []
  | FS.dir n readable sub :: rest =>
    if SKIP_DIRS.contains n then process_entries rootName rel rest
    else if startsWithDot n && ¬ (n = ".claude") then process_entries rootName rel rest
    else
      let child := process_dir rootName n readable sub (relJoin rel n)
      if (child.childrenOf).isEmpty then process_entries rootName rel rest
      else child :: process_entries rootName rel rest
  | FS.file n tok readOk :: rest =>
    if should_skip_file n then process_entries rootName rel rest
    else
      Node.file n (relJoin rel n) (is_agent_doc n)
        (if is_agent_doc n then some (if readOk then tok else 0) else none)
      :: process_entries rootName rel rest
termination_by l => sizeOf l
decreasing_by
  all_goals simp_wf
  all_goals omega

end

/-- `build_tree` of `tree.py`, given the components of the root directory
(`main` rejects a root that is not a directory before calling it).  The
root node's relative path is `"."`; an empty root name falls back to
`"root"`. -/
def build_tree (rootDirName : String) (readable : Bool) (entries : List FS) : Node :=
  process_dir (if rootDirName = "" then "root" else rootDirName)
    rootDirName readable entries "."

/-! ## `tree.py`: the filter -/

mutual

/-- `has_agent_doc` of `filter_tree_to_agent_docs`: a node carries an agent
doc when it is one, or (for a directory) when any descendant does. -/
def hasAgentDoc : Node → Bool
  | .file _ _ d _ => d
  | .dir _ _ cs => hasAgentDocList cs

def hasAgentDocList : List Node → Bool
  | [] => false
  | c :: cs => hasAgentDoc c || hasAgentDocList cs

end

mutual

/-- `filter_node` of `filter_tree_to_agent_docs`: an agent doc always
survives; a plain file survives only when `includeAllFiles` is set, which
the directory case sets from `has_agent_doc` of the directory being
filtered; a directory survives when it keeps a child or carries an agent
doc. -/
def filterNode : Node → Bool → Option Node
  | .file n p d t, includeAllFiles =>
    if d then some (.file n p d t)
    else if includeAllFiles then some (.file n p d t)
    else none
  | .dir n p cs, _ =>
    if ¬ (filterChildren cs (hasAgentDocList cs)).isEmpty || hasAgentDocList cs
    then some (.dir n p (filterChildren cs (hasAgentDocList cs)))
    else none

def filterChildren : List Node → Bool → List Node
  | [], _ => []
  | c :: cs, inc =>
    match filterNode c inc with
    | some fc => fc :: filterChildren cs inc
    | none => filterChildren cs inc

end

/-- `filter_tree_to_agent_docs` of `tree.py`: filter from the root; when
filtering yields nothing, fall back to the original tree
(`filter_node(tree) or tree`). -/
def filter_tree_to_agent_docs (t : Node) : Node := (filterNode t false).getD t

mutual

/-- Every node path of a tree, in depth-first order. -/
def nodePaths : Node → List String
  | .file _ p _ _ => [p]
  | .dir _ p cs => p :: nodePathsList cs

def nodePathsList : List Node → List String
  | [] => []
  | c :: cs => nodePaths c ++ nodePathsList cs

end

mutual

/-- The paths of the nodes with `isAgentDoc = true`, in depth-first
order. -/
def agentDocPaths : Node → List String
  | .file _ p d _ => if d then [p] else []
  | .dir _ _ cs => agentDocPathsList cs

def agentDocPathsList : List Node → List String
  | [] => []
  | c :: cs => agentDocPaths c ++ agentDocPathsList cs

end

mutual

/-- Every directory node of the tree has at least one child or carries an
agent doc in its subtree (the directory clause of the filter-soundness
property). -/
def dirsOk : Node → Bool
  | .file _ _ _ _ => true
  | .dir _ _ cs => (¬ cs.isEmpty || hasAgentDocList cs) && dirsOkList cs

def dirsOkList : List Node → Bool
  | [] => true
  | c :: cs => dirsOk c && dirsOkList cs

end

/-! ## `merge_edges.py` -/

/-- JSON values, as produced by `json.loads`.  Object fields are listed in
source order; a parsed object has distinct keys, and lookups take the
first binding. -/
inductive Json where
  | null
  | bool (b : Bool)
  | num (n : Int)
  | str (s : String)
  | arr (elems : List Json)
  | obj (fields : List (String × Json))

/-- Python `key in d` / `d[key]` / `d.get(key)` on a parsed object. -/
def lookupKey : List (String × Json) → String → Option Json
  | [], _ => none
  | (k, v) :: rest, key => if k = key then some v else lookupKey rest key

/-- What reading and JSON-parsing one input file yields: a read failure, a
parse failure, or a parsed value. -/
inductive FileData where
  | readError
  | parseError
  | parsed (j : Json)

/-- `edge.get("type") in ("agent-doc", "file", "directory")` of
`validate_edge_file`. -/
def isAllowedType : Json → Bool
  | .str s => s = "agent-doc" || s = "file" || s = "directory"
  | _ => false

/-- The per-edge checks of `validate_edge_file` for the edge at index `i`:
the edge must be an object (otherwise a single error and no further checks)
carrying `source`, `target` and an allowed `type`. -/
def edgeErrors (i : Nat) : Json → List String
  | .obj fs =>
    (if (lookupKey fs "source").isNone then ["Edge " ++ toString i ++ ": missing source"] else [])
    ++ (if (lookupKey fs "target").isNone then ["Edge " ++ toString i ++ ": missing target"] else [])
    ++ (match lookupKey fs "type" with
        | none => ["Edge " ++ toString i ++ ": missing type"]
        | some t =>
          if isAllowedType t then []
          else ["Edge " ++ toString i ++ ": type must be agent-doc, file, or directory"])
  | _ => ["Edge " ++ toString i ++ ": must be an object"]

/-- The `for i, edge in enumerate(data["edges"])` loop of
`validate_edge_file`. -/
def edgesErrors (i : Nat) : List Json → List String
  | [] => []
  | e :: es => edgeErrors i e ++ edgesErrors (i + 1) es

/-- The `source` field checks of `validate_edge_file`. -/
def sourceErrors (fs : List (String × Json)) : List String :=
  match lookupKey fs "source" with
  | none => ["Missing source field"]
  | some (.str _) => []
  | some _ => ["source must be a string"]

/-- The `edges` field checks of `validate_edge_file`. -/
def edgesFieldErrors (fs : List (String × Json)) : List String :=
  match lookupKey fs "edges" with
  | none => ["Missing edges field"]
  | some (.arr es) => edgesErrors 0 es
  | some _ => ["edges must be an array"]

/-- `validate_edge_file` of `merge_edges.py`: returns the parsed record and
no errors when the file is structurally valid, otherwise `none` and the
accumulated error strings.  The error texts are abbreviated (the quote
characters and dynamic detail of the Python messages are dropped); only
which checks fire, and hence whether the error list is empty, matters to
the merge. -/
def validate_edge_file : FileData → Option Json × List String
  | .readError => (none, ["Could not read file"])
  | .parseError => (none, ["Invalid JSON"])
  | .parsed (.obj fs) =>
    if (sourceErrors fs ++ edgesFieldErrors fs).isEmpty
    then (some (.obj fs), [])
    else (none, sourceErrors fs ++ edgesFieldErrors fs)
  | .parsed _ => (none, ["Root must be an object"])

/-- The summary accumulated by `merge_edge_files`. -/
structure Summary where
  files_processed : Nat
  files_valid : Nat
  files_invalid : Nat
  total_edges : Nat
  validation_errors : List (String × List String)

/-- The merged output of `merge_edge_files` (`{"edges": merged_edges}`). -/
structure MergedData where
  edges : List Json

/-- `data.get("edges", [])` on a validated record (for a valid record the
field is always present and an array). -/
def dataEdges : Json → List Json
  | .obj fs =>
    match lookupKey fs "edges" with
    | some (.arr es) => es
    | _ => []
  | _ => []

/-- The per-file loop of `merge_edge_files`, over (file name, file data)
pairs in processed order: an invalid file is counted and (with the
`validate` flag) its errors recorded; a valid file is counted and its
edges appended. -/
def mergeLoop (validate : Bool) : List (String × FileData) → MergedData × Summary
  | [] => (⟨[]⟩, ⟨0, 0, 0, 0, []⟩)
  | (name, fd) :: rest =>
    let r := mergeLoop validate rest
    match validate_edge_file fd with
    | (dataOpt, []) =>
      let edges := match dataOpt with
        | some d => dataEdges d
        | none => []
      (⟨edges ++ r.1.edges⟩,
       ⟨r.2.files_processed + 1, r.2.files_valid + 1, r.2.files_invalid,
        r.2.total_edges + edges.length, r.2.validation_errors⟩)
    | (_, e :: errs) =>
      (r.1,
       ⟨r.2.files_processed + 1, r.2.files_valid, r.2.files_invalid + 1,
        r.2.total_edges,
        if validate then (name, e :: errs) :: r.2.validation_errors
        else r.2.validation_errors⟩)

/-- `merge_edge_files` of `merge_edges.py`: process the input directory's
JSON files in sorted-by-name order (`sorted(input_dir.glob("*.json"))`).
The `verbose` flag only controls diagnostic printing. -/
def merge_edge_files (files : List (String × FileData))
    (validate : Bool) (verbose : Bool) : MergedData × Summary :=
  let _ := verbose
  mergeLoop validate (sortBy Prod.fst files)

/-- The observable events of `main` of `merge_edges.py` after the
input-directory existence check. -/
inductive MainEvent where
  | wroteOutput (data : MergedData)
  | exited (code : Nat)

/-- `main` of `merge_edges.py`, restricted to an existing input directory
(a missing directory exits with code 1 before merging): merge, write the
merged output, print the summary, then exit 1 when any file was invalid
and fall off the end (exit 0) otherwise. -/
def main_run (files : List (String × FileData))
    (validate : Bool) (verbose : Bool) : List MainEvent :=
  let r := merge_edge_files files validate verbose
  [MainEvent.wroteOutput r.1,
   MainEvent.exited (if r.2.files_invalid > 0 then 1 else 0)]

/-! ## `visualize.py`: cumulative token aggregation

The aggregation runs in the generated page's script over the
`agentDocTokens` map (path of each agent doc → its token count, a
non-negative integer); the map is modelled as a function
`String → Option Nat`. -/

/-- The `activeDocTypeFilter` values (`'all'`, `'claude'`, `'agents'`). -/
inductive DocTypeFilter where
  | all
  | claude
  | agents

/-- `path.split('/').pop()` of `matchesDocTypeFilter` (a JavaScript split
always yields at least one element). -/
def lastPathComponent (p : String) : String := (splitOnChar '/' p).getLastD ""

/-- `matchesDocTypeFilter` of `visualize.py`. -/
def matchesDocTypeFilter (f : DocTypeFilter) (path : String) : Bool :=
  match f with
  | .all => true
  | .claude => lowerStr (lastPathComponent path) = "claude.md"
  | .agents => lowerStr (lastPathComponent path) = "agents.md"

/-- The root-document loop of `getCumulativeTokens` for one canonical doc
name: try `./name` then `name`, and take the first root path that is in
the index and passes the filter (`break` after the first hit). -/
def rootDocContribution (idx : String → Option Nat) (f : DocTypeFilter)
    (docName : String) : List (String × Nat) :=
  if (idx ("./" ++ docName)).isSome && matchesDocTypeFilter f ("./" ++ docName) then
    [("./" ++ docName, (idx ("./" ++ docName)).getD 0)]
  else if (idx docName).isSome && matchesDocTypeFilter f docName then
    [(docName, (idx docName).getD 0)]
  else []

/-- The running state of the `getCumulativeTokens` walk: `currentPath`,
the accumulated `total`, and the `breakdown` list. -/
structure CumState where
  currentPath : String
  total : Nat
  breakdown : List (String × Nat)

/-- One `agentDocTokens.has(docPath) && matchesDocTypeFilter(docPath)`
check of the walk: on a hit, add the tokens and push the breakdown
entry. -/
def dirDocCheck (idx : String → Option Nat) (f : DocTypeFilter)
    (docPath : String) (st : CumState) : CumState :=
  if (idx docPath).isSome && matchesDocTypeFilter f docPath then
    { st with total := st.total + (idx docPath).getD 0,
              breakdown := st.breakdown ++ [(docPath, (idx docPath).getD 0)] }
  else st

/-- One iteration of the `for (let i = 0; i < parts.length; i++)` walk of
`getCumulativeTokens`: skip `'.'` parts, extend `currentPath`, then check
this directory's `CLAUDE.md` and `AGENTS.md`. -/
def walkStep (idx : String → Option Nat) (f : DocTypeFilter)
    (st : CumState) (part : String) : CumState :=
  if part = "." then st
  else
    let cp := if st.currentPath = "." then part else st.currentPath ++ "/" ++ part
    dirDocCheck idx f (cp ++ "/AGENTS.md")
      (dirDocCheck idx f (cp ++ "/CLAUDE.md") { st with currentPath := cp })

/-- `getCumulativeTokens` of `visualize.py`: root contribution first
(CLAUDE.md before AGENTS.md), then the walk down the split path. -/
def getCumulativeTokens (idx : String → Option Nat) (f : DocTypeFilter)
    (path : String) : Nat × List (String × Nat) :=
  let parts := if path = "." then ["."] else splitOnChar '/' path
  let rootItems := rootDocContribution idx f "CLAUDE.md" ++ rootDocContribution idx f "AGENTS.md"
  let stF := parts.foldl (walkStep idx f) ⟨".", (rootItems.map Prod.snd).sum, rootItems⟩
  (stF.total, stF.breakdown)

/-- The filesystem ancestor relation on relative directory paths, on the
path segments the walk actually visits (`'.'` segments are skipped by the
walk, so they are dropped here; the root `"."` has no segments and is an
ancestor of every path). -/
def dropDots : List String → List String
  | [] => []
  | s :: rest => if s = "." then dropDots rest else s :: dropDots rest

def pathSegs (p : String) : List String :=
  dropDots (if p = "." then ["."] else splitOnChar '/' p)

def isAncestorSegs : List String → List String → Bool
  | [], _ => true
  | _ :: _, [] => false
  | x :: xs, y :: ys => if x = y then isAncestorSegs xs ys else false

/-- `P` is an ancestor of `Q` (or equal to it): `P`'s segment list is a
leading part of `Q`'s. -/
def isAncestorPath (p q : String) : Bool := isAncestorSegs (pathSegs p) (pathSegs q)

/-! ## `visualize.py`: thresholds -/

/-- `parseInt(input.value) || default` of `updateThresholds`: a number
input may fail to parse (`none`, JavaScript `NaN`) or parse to `0`; both
are falsy and replaced by the default. -/
def parseIntOr (v : Option Int) (d : Int) : Int :=
  match v with
  | none => d
  | some n => if n = 0 then d else n

/-- The global `tokenThresholds` object. -/
structure Thresholds where
  green : Int
  yellow : Int

/-- `updateThresholds` of `visualize.py`, as a function of the two input
fields: parse both, push the yellow input above the green value when the
pair is non-increasing (`yellowInput.value = greenVal + 100`), then
re-parse both inputs into the threshold state. -/
def updateThresholds (greenInput yellowInput : Option Int) : Thresholds :=
  let greenVal := parseIntOr greenInput 500
  let yellowVal := parseIntOr yellowInput 1500
  let yellowInput2 := if greenVal ≥ yellowVal then some (greenVal + 100) else yellowInput
  { green := parseIntOr greenInput 500, yellow := parseIntOr yellowInput2 1500 }

/-- The three token bands of `getTokenColor`. -/
inductive TokenColor where
  | green
  | yellow
  | red

/-- `getTokenColor` of `visualize.py`. -/
def getTokenColor (t : Thresholds) (tokens : Int) : TokenColor :=
  if tokens < t.green then .green
  else if tokens < t.yellow then .yellow
  else .red

/-! ## Derived definitions used by the statements -/

/-- The edge list a structurally valid record contributes to the merge
(for an invalid or unreadable file the merge takes no edges at all). -/
def recordEdges : FileData → List Json
  | .parsed j => dataEdges j
  | _ => []

/-- The per-edge property `validate_edge_file` actually enforces: the edge
is an object carrying a `source` key, a `target` key, and a `type` key
whose value is one of the three allowed enumerants.  (Emptiness of the
`source`/`target` strings is not part of the check.) -/
def goodEdgeB : Json → Bool
  | .obj fs =>
    (lookupKey fs "source").isSome && (lookupKey fs "target").isSome &&
      (match lookupKey fs "type" with
       | some t => isAllowedType t
       | none => false)
  | _ => false

/-- A record whose only flaw is an edge with empty-string `source` and
`target` (used to probe what the validator checks). -/
def emptySourceRecord : Json :=
  .obj [("source", .str "a/CLAUDE.md"),
        ("edges", .arr [.obj [("source", .str ""), ("target", .str ""), ("type", .str "file")]])]

/-- A structurally valid record with two edges. -/
def exampleRecordA : Json :=
  .obj [("source", .str "a/CLAUDE.md"),
        ("edges", .arr
          [.obj [("source", .str "a/CLAUDE.md"), ("target", .str "a/x.py"), ("type", .str "file")],
           .obj [("source", .str "a/CLAUDE.md"), ("target", .str "a/b"), ("type", .str "directory")]])]

/-- A structurally valid record with one edge. -/
def exampleRecordB : Json :=
  .obj [("source", .str "b/AGENTS.md"),
        ("edges", .arr
          [.obj [("source", .str "b/AGENTS.md"), ("target", .str "a/CLAUDE.md"),
                 ("type", .str "agent-doc")]])]

/-- An edge lacking the `target` and `type` keys. -/
def missingTargetEdge : Json := .obj [("source", .str "b/AGENTS.md")]

/-- The fields of a record whose single edge lacks `target` and `type`. -/
def missingTargetFields : List (String × Json) :=
  [("source", .str "b/AGENTS.md"), ("edges", .arr [missingTargetEdge])]

/-! ## Lemmas about the filter -/

mutual

/-- Filtering preserves whether a node carries an agent doc: a dropped node
never carried one, a kept node carries one exactly when the original
did. -/
theorem hasAgentDoc_filterNode (n : Node) (inc : Bool) :
    (filterNode n inc).elim false hasAgentDoc = hasAgentDoc n := by
  cases n with
  | file nm p d t =>
    cases d <;> cases inc <;> simp [filterNode, hasAgentDoc]
  | dir nm p cs =>
    cases hb : hasAgentDocList cs with
    | false =>
      cases hfc : (filterChildren cs false).isEmpty with
      | false =>
        simp [filterNode, hb, hfc, hasAgentDoc, hasAgentDocList_filterChildren cs false]
      | true =>
        simp [filterNode, hb, hfc, hasAgentDoc]
    | true =>
      simp [filterNode, hb, hasAgentDoc, hasAgentDocList_filterChildren cs true]

theorem hasAgentDocList_filterChildren (cs : List Node) (inc : Bool) :
    hasAgentDocList (filterChildren cs inc) = hasAgentDocList cs := by
  cases cs with
  | nil => rfl
  | cons c cs =>
    have h := hasAgentDoc_filterNode c inc
    cases hfc : filterNode c inc with
    | none =>
      rw [hfc] at h
      simp only [Option.elim] at h
      simp [filterChildren, hfc, hasAgentDocList, ← h, hasAgentDocList_filterChildren cs inc]
    | some m =>
      rw [hfc] at h
      simp only [Option.elim] at h
      simp [filterChildren, hfc, hasAgentDocList, ← h, hasAgentDocList_filterChildren cs inc]

end

/-- A node that filters to nothing carried no agent doc. -/
theorem hasAgentDoc_of_filterNode_none {n : Node} {inc : Bool}
    (h : filterNode n inc = none) : hasAgentDoc n = false := by
  have := hasAgentDoc_filterNode n inc
  rw [h] at this
  simpa using this.symm

mutual

/-- Filtering preserves the agent docs and their paths exactly. -/
theorem agentDocPaths_filterNode (n : Node) (inc : Bool) :
    (filterNode n inc).elim [] agentDocPaths = agentDocPaths n := by
  cases n with
  | file nm p d t =>
    cases d <;> cases inc <;> simp [filterNode, agentDocPaths]
  | dir nm p cs =>
    cases hb : hasAgentDocList cs with
    | false =>
      cases hfc : (filterChildren cs false).isEmpty with
      | false =>
        simp [filterNode, hb, hfc, agentDocPaths, agentDocPathsList_filterChildren cs false]
      | true =>
        have h := agentDocPathsList_filterChildren cs false
        have hnil : filterChildren cs false = [] := by
          cases hx : filterChildren cs false with
          | nil => rfl
          | cons a l => rw [hx] at hfc; simp at hfc
        rw [hnil] at h
        simp [filterNode, hb, hfc, agentDocPaths, ← h, agentDocPathsList]
    | true =>
      simp [filterNode, hb, agentDocPaths, agentDocPathsList_filterChildren cs true]

theorem agentDocPathsList_filterChildren (cs : List Node) (inc : Bool) :
    agentDocPathsList (filterChildren cs inc) = agentDocPathsList cs := by
  cases cs with
  | nil => rfl
  | cons c cs =>
    have h := agentDocPaths_filterNode c inc
    cases hfc : filterNode c inc with
    | none =>
      rw [hfc] at h
      simp only [Option.elim] at h
      simp [filterChildren, hfc, agentDocPathsList, ← h,
        agentDocPathsList_filterChildren cs inc]
    | some m =>
      rw [hfc] at h
      simp only [Option.elim] at h
      simp [filterChildren, hfc, agentDocPathsList, ← h,
        agentDocPathsList_filterChildren cs inc]

end

/-- `filter_tree_to_agent_docs` preserves the agent-doc paths exactly. -/
theorem agentDocPaths_filter_tree (t : Node) :
    agentDocPaths (filter_tree_to_agent_docs t) = agentDocPaths t := by
  unfold filter_tree_to_agent_docs
  cases h : filterNode t false with
  | none => rfl
  | some m =>
    have := agentDocPaths_filterNode t false
    rw [h] at this
    simpa using this

/-- A directory subtree that carries an agent doc keeps at least one child
under filtering. -/
theorem filterChildren_ne_nil_of_hasAgentDoc (cs : List Node) (inc : Bool)
    (h : hasAgentDocList cs = true) : ¬ (filterChildren cs inc).isEmpty = true := by
  have hl := hasAgentDocList_filterChildren cs inc
  rw [h] at hl
  intro hemp
  cases hx : filterChildren cs inc with
  | nil => rw [hx] at hl; simp [hasAgentDocList] at hl
  | cons a l => rw [hx] at hemp; simp at hemp

mutual

/-- Every directory node of a filtered tree has a surviving child or
carries an agent doc. -/
theorem dirsOk_filterNode (n : Node) (inc : Bool) (m : Node)
    (h : filterNode n inc = some m) : dirsOk m = true := by
  cases n with
  | file nm p d t =>
    cases d <;> cases inc <;> simp only [filterNode] at h <;> simp at h <;>
      subst h <;> simp [dirsOk]
  | dir nm p cs =>
    cases hb : hasAgentDocList cs with
    | false =>
      cases hfc : (filterChildren cs false).isEmpty with
      | false =>
        rw [filterNode, hb, hfc] at h
        simp only [Bool.not_false, Bool.or_false, if_pos] at h
        cases h
        simp [dirsOk, hfc, dirsOkList_filterChildren cs false]
      | true =>
        rw [filterNode, hb, hfc] at h
        simp at h
    | true =>
      rw [filterNode, hb] at h
      simp only [Bool.or_true, if_pos] at h
      cases h
      have hne := filterChildren_ne_nil_of_hasAgentDoc cs true hb
      simp [dirsOk, dirsOkList_filterChildren cs true,
        hasAgentDocList_filterChildren cs true, hb]

theorem dirsOkList_filterChildren (cs : List Node) (inc : Bool) :
    dirsOkList (filterChildren cs inc) = true := by
  cases cs with
  | nil => rfl
  | cons c cs =>
    cases hfc : filterNode c inc with
    | none => simp [filterChildren, hfc, dirsOkList_filterChildren cs inc]
    | some m =>
      simp [filterChildren, hfc, dirsOkList, dirsOk_filterNode c inc m hfc,
        dirsOkList_filterChildren cs inc]

end

mutual

/-- The filter is a projection: refiltering a filtered node returns it
unchanged. -/
theorem filterNode_filterNode (n : Node) (inc : Bool) (m : Node)
    (h : filterNode n inc = some m) : filterNode m inc = some m := by
  cases n with
  | file nm p d t =>
    cases d <;> cases inc <;> simp only [filterNode] at h <;> simp at h <;>
      subst h <;> simp [filterNode]
  | dir nm p cs =>
    cases hb : hasAgentDocList cs with
    | false =>
      cases hfc : (filterChildren cs false).isEmpty with
      | false =>
        rw [filterNode, hb, hfc] at h
        simp only [Bool.not_false, Bool.or_false, if_pos] at h
        cases h
        rw [filterNode, hasAgentDocList_filterChildren cs false, hb,
          filterChildren_filterChildren cs false, hfc]
        simp
      | true =>
        rw [filterNode, hb, hfc] at h
        simp at h
    | true =>
      rw [filterNode, hb] at h
      simp only [Bool.or_true, if_pos] at h
      cases h
      rw [filterNode, hasAgentDocList_filterChildren cs true, hb,
        filterChildren_filterChildren cs true]
      simp

theorem filterChildren_filterChildren (cs : List Node) (inc : Bool) :
    filterChildren (filterChildren cs inc) inc = filterChildren cs inc := by
  cases cs with
  | nil => rfl
  | cons c cs =>
    cases hfc : filterNode c inc with
    | none => simp [filterChildren, hfc, filterChildren_filterChildren cs inc]
    | some m =>
      simp [filterChildren, hfc, filterNode_filterNode c inc m hfc,
        filterChildren_filterChildren cs inc]

end

/-- The filter is idempotent as a tree transformation. -/
theorem filter_tree_idem (t : Node) :
    filter_tree_to_agent_docs (filter_tree_to_agent_docs t) = filter_tree_to_agent_docs t := by
  unfold filter_tree_to_agent_docs
  cases h : filterNode t false with
  | none => simp [h]
  | some m => simp [filterNode_filterNode t false m h]

/-- C1 (as stated) fails on the tree consisting of a single childless,
doc-free root directory: filtering yields nothing, so
`filter_tree_to_agent_docs` falls back to the original tree, whose root
directory has no surviving child and no agent doc in its subtree. -/
theorem C1_filter_soundness_counterexample :
    ¬ ((∀ p, p ∈ agentDocPaths (Node.dir "root" "." []) →
          p ∈ agentDocPaths (filter_tree_to_agent_docs (Node.dir "root" "." []))) ∧
       dirsOk (filter_tree_to_agent_docs (Node.dir "root" "." [])) = true) := by
  intro h
  exact absurd h.2 (by decide)

/-- C1 (amended): for every tree, every agent doc of the tree is present at
the same path in the filtered tree; and whenever the tree contains at least
one agent doc (so the filter does not take its fallback branch), every
directory node of the filtered tree has at least one surviving child or
carries an agent doc in its subtree. -/
theorem C1_filter_soundness (t : Node) :
    (∀ p, p ∈ agentDocPaths t → p ∈ agentDocPaths (filter_tree_to_agent_docs t)) ∧
    (hasAgentDoc t = true → dirsOk (filter_tree_to_agent_docs t) = true) := by
  constructor
  · intro p hp
    rw [agentDocPaths_filter_tree]
    exact hp
  · intro hdoc
    unfold filter_tree_to_agent_docs
    cases h : filterNode t false with
    | none =>
      rw [hasAgentDoc_of_filterNode_none h] at hdoc
      exact absurd hdoc (by simp)
    | some m => simpa using dirsOk_filterNode t false m h

/-- C1 witness: the one-doc tree of the spec's first scenario. -/
theorem C1_filter_soundness_witness :
    "CLAUDE.md" ∈ agentDocPaths (filter_tree_to_agent_docs
        (Node.dir "r" "." [Node.file "CLAUDE.md" "CLAUDE.md" true (some 500)])) ∧
    dirsOk (filter_tree_to_agent_docs
        (Node.dir "r" "." [Node.file "CLAUDE.md" "CLAUDE.md" true (some 500)])) = true :=
  ⟨(C1_filter_soundness (Node.dir "r" "." [Node.file "CLAUDE.md" "CLAUDE.md" true (some 500)])).1
      "CLAUDE.md" (by decide),
   (C1_filter_soundness (Node.dir "r" "." [Node.file "CLAUDE.md" "CLAUDE.md" true (some 500)])).2
      (by decide)⟩

/-- C8: the node-path set of `filter(filter(T))` equals that of
`filter(T)` — in fact the filtered trees are equal, so the path lists
agree exactly. -/
theorem C8_filter_idempotence (t : Node) :
    nodePaths (filter_tree_to_agent_docs (filter_tree_to_agent_docs t)) =
      nodePaths (filter_tree_to_agent_docs t) := by
  rw [filter_tree_idem]

/-! ## Lemmas about the merge -/

/-- A file that validates without errors is a parsed record returned
as-is. -/
theorem validate_of_no_errors {fd : FileData}
    (h : (validate_edge_file fd).2 = []) :
    ∃ j, fd = FileData.parsed j ∧ validate_edge_file fd = (some j, []) := by
  cases fd with
  | readError => simp [validate_edge_file] at h
  | parseError => simp [validate_edge_file] at h
  | parsed j =>
    cases j with
    | obj fs =>
      by_cases hc : (sourceErrors fs ++ edgesFieldErrors fs).isEmpty
      · exact ⟨.obj fs, rfl, by simp [validate_edge_file, hc]⟩
      · exfalso
        rw [validate_edge_file, if_neg hc] at h
        rw [show sourceErrors fs ++ edgesFieldErrors fs = [] from h] at hc
        simp at hc
    | null => simp [validate_edge_file] at h
    | bool b => simp [validate_edge_file] at h
    | num n => simp [validate_edge_file] at h
    | str s => simp [validate_edge_file] at h
    | arr es => simp [validate_edge_file] at h

/-- Unfolding `mergeLoop` on a valid head file. -/
theorem mergeLoop_cons_valid (v : Bool) (n : String) (fd : FileData)
    (rest : List (String × FileData)) (h : (validate_edge_file fd).2 = []) :
    mergeLoop v ((n, fd) :: rest) =
      (⟨recordEdges fd ++ (mergeLoop v rest).1.edges⟩,
       ⟨(mergeLoop v rest).2.files_processed + 1, (mergeLoop v rest).2.files_valid + 1,
        (mergeLoop v rest).2.files_invalid,
        (mergeLoop v rest).2.total_edges + (recordEdges fd).length,
        (mergeLoop v rest).2.validation_errors⟩) := by
  obtain ⟨j, rfl, hv⟩ := validate_of_no_errors h
  simp only [mergeLoop]
  rw [hv]
  rfl

/-- Unfolding `mergeLoop` on an invalid head file. -/
theorem mergeLoop_cons_invalid (v : Bool) (n : String) (fd : FileData)
    (rest : List (String × FileData)) (h : (validate_edge_file fd).2 ≠ []) :
    mergeLoop v ((n, fd) :: rest) =
      ((mergeLoop v rest).1,
       ⟨(mergeLoop v rest).2.files_processed + 1, (mergeLoop v rest).2.files_valid,
        (mergeLoop v rest).2.files_invalid + 1, (mergeLoop v rest).2.total_edges,
        if v then (n, (validate_edge_file fd).2) :: (mergeLoop v rest).2.validation_errors
        else (mergeLoop v rest).2.validation_errors⟩) := by
  rcases hv : validate_edge_file fd with ⟨dopt, errs⟩
  cases errs with
  | nil => exact absurd (by rw [hv]) h
  | cons e es =>
    simp only [mergeLoop]
    rw [hv]

/-- `mergeLoop` distributes over list concatenation in its merged edges and
its invalid-file count. -/
theorem mergeLoop_append (v : Bool) (a b : List (String × FileData)) :
    (mergeLoop v (a ++ b)).1.edges = (mergeLoop v a).1.edges ++ (mergeLoop v b).1.edges ∧
    (mergeLoop v (a ++ b)).2.files_invalid
        = (mergeLoop v a).2.files_invalid + (mergeLoop v b).2.files_invalid := by
  induction a with
  | nil => simp [mergeLoop]
  | cons x rest ih =>
    obtain ⟨x1, x2⟩ := x
    by_cases h : (validate_edge_file x2).2 = []
    · rw [List.cons_append, mergeLoop_cons_valid v x1 x2 (rest ++ b) h,
        mergeLoop_cons_valid v x1 x2 rest h]
      simp [ih.1, ih.2]
    · rw [List.cons_append, mergeLoop_cons_invalid v x1 x2 (rest ++ b) h,
        mergeLoop_cons_invalid v x1 x2 rest h]
      simp [ih.1, ih.2]
      omega

/-- `mergeLoop` on a list of valid files: every file is counted valid and
every edge list is concatenated in list order. -/
theorem mergeLoop_all_valid (v : Bool) (l : List (String × FileData))
    (h : ∀ nf ∈ l, (validate_edge_file nf.2).2 = []) :
    (mergeLoop v l).1.edges = (l.map (fun nf => recordEdges nf.2)).flatten ∧
    (mergeLoop v l).2.files_invalid = 0 ∧
    (mergeLoop v l).2.files_valid = l.length ∧
    (mergeLoop v l).2.files_processed = l.length ∧
    (mergeLoop v l).2.total_edges = (l.map (fun nf => (recordEdges nf.2).length)).sum := by
  induction l with
  | nil => simp [mergeLoop]
  | cons x rest ih =>
    obtain ⟨x1, x2⟩ := x
    have hx : (validate_edge_file x2).2 = [] := h (x1, x2) (List.mem_cons_self _ _)
    have hrest := ih (fun nf hnf => h nf (List.mem_cons_of_mem _ hnf))
    rw [mergeLoop_cons_valid v x1 x2 rest hx]
    simp [hrest.1, hrest.2.1, hrest.2.2.1, hrest.2.2.2.1, hrest.2.2.2.2]
    omega

/-- The summary of one `mergeLoop` run is internally consistent. -/
theorem mergeLoop_summary (v : Bool) (l : List (String × FileData)) :
    (mergeLoop v l).2.files_processed
        = (mergeLoop v l).2.files_valid + (mergeLoop v l).2.files_invalid ∧
    (mergeLoop v l).2.total_edges = (mergeLoop v l).1.edges.length := by
  induction l with
  | nil => simp [mergeLoop]
  | cons x rest ih =>
    obtain ⟨x1, x2⟩ := x
    by_cases h : (validate_edge_file x2).2 = []
    · rw [mergeLoop_cons_valid v x1 x2 rest h]
      refine ⟨by simp [ih.1]; omega, ?_⟩
      simp [ih.2]
      omega
    · rw [mergeLoop_cons_invalid v x1 x2 rest h]
      refine ⟨by simp [ih.1]; omega, by simpa using ih.2⟩

/-- C10: the summary returned by the merge is internally consistent:
`files_processed = files_valid + files_invalid`, and `total_edges` equals
the length of the returned merged edge list. -/
theorem C10_summary_consistency (files : List (String × FileData)) (v vb : Bool) :
    (merge_edge_files files v vb).2.files_processed
        = (merge_edge_files files v vb).2.files_valid
          + (merge_edge_files files v vb).2.files_invalid ∧
    (merge_edge_files files v vb).2.total_edges
        = (merge_edge_files files v vb).1.edges.length := by
  unfold merge_edge_files
  exact mergeLoop_summary v (sortBy Prod.fst files)

/-- C2: when every input file is structurally valid, the merged edge list
is the concatenation, in file-name sort order, of the files' edge lists;
its length is the sum of the per-file edge counts; and the summary counts
zero invalid and N valid files. -/
theorem C2_merge_completeness (files : List (String × FileData)) (v vb : Bool)
    (h : ∀ nf ∈ files, (validate_edge_file nf.2).2 = []) :
    (merge_edge_files files v vb).1.edges
        = ((sortBy Prod.fst files).map (fun nf => recordEdges nf.2)).flatten ∧
    (merge_edge_files files v vb).1.edges.length
        = (files.map (fun nf => (recordEdges nf.2).length)).sum ∧
    (merge_edge_files files v vb).2.files_invalid = 0 ∧
    (merge_edge_files files v vb).2.files_valid = files.length := by
  have hperm := sortBy_perm Prod.fst files
  have hs : ∀ nf ∈ sortBy Prod.fst files, (validate_edge_file nf.2).2 = [] :=
    fun nf hnf => h nf (hperm.mem_iff.mp hnf)
  have hm := mergeLoop_all_valid v (sortBy Prod.fst files) hs
  unfold merge_edge_files
  refine ⟨hm.1, ?_, hm.2.1, ?_⟩
  · rw [hm.1, List.length_flatten, List.map_map]
    exact (hperm.map (fun nf => (recordEdges nf.2).length)).sum_eq
  · rw [hm.2.2.1, hperm.length_eq]

/-- C2 witness: two valid files, listed out of name order; the merge sorts
them, concatenates their three edges, and reports 0 invalid / 2 valid. -/
theorem C2_merge_completeness_witness :
    (merge_edge_files [("b.json", FileData.parsed exampleRecordB),
        ("a.json", FileData.parsed exampleRecordA)] false false).1.edges
        = recordEdges (FileData.parsed exampleRecordA)
            ++ recordEdges (FileData.parsed exampleRecordB) ∧
    (merge_edge_files [("b.json", FileData.parsed exampleRecordB),
        ("a.json", FileData.parsed exampleRecordA)] false false).1.edges.length = 3 ∧
    (merge_edge_files [("b.json", FileData.parsed exampleRecordB),
        ("a.json", FileData.parsed exampleRecordA)] false false).2.files_invalid = 0 ∧
    (merge_edge_files [("b.json", FileData.parsed exampleRecordB),
        ("a.json", FileData.parsed exampleRecordA)] false false).2.files_valid = 2 := by
  have h := C2_merge_completeness
    [("b.json", FileData.parsed exampleRecordB), ("a.json", FileData.parsed exampleRecordA)]
    false false (by decide)
  exact ⟨h.1.trans (by rfl), h.2.1.trans (by rfl), h.2.2.1, h.2.2.2⟩

/-- C6: with the sorted input decomposing as `A ++ [file] ++ B`, an invalid
file in the middle contributes no edges — the merged list is exactly the
contribution of `A` followed by that of `B` — while a valid file in the
same position contributes exactly its own edges between the two; so
replacing the valid file by an invalid one leaves the other files'
contributions and their order unchanged. -/
theorem C6_merge_isolation (v vb : Bool)
    (A B files1 files2 : List (String × FileData)) (n1 n2 : String) (f g : FileData)
    (h1 : sortBy Prod.fst files1 = A ++ (n1, f) :: B)
    (hf : (validate_edge_file f).2 = [])
    (h2 : sortBy Prod.fst files2 = A ++ (n2, g) :: B)
    (hg : (validate_edge_file g).2 ≠ []) :
    (merge_edge_files files2 v vb).1.edges
        = (mergeLoop v A).1.edges ++ (mergeLoop v B).1.edges ∧
    (merge_edge_files files1 v vb).1.edges
        = (mergeLoop v A).1.edges ++ (recordEdges f ++ (mergeLoop v B).1.edges) := by
  unfold merge_edge_files
  rw [h1, h2]
  constructor
  · rw [(mergeLoop_append v A ((n2, g) :: B)).1, mergeLoop_cons_invalid v n2 g B hg]
  · rw [(mergeLoop_append v A ((n1, f) :: B)).1, mergeLoop_cons_valid v n1 f B hf]

/-- C6 witness: replacing the valid middle file `b.json` by an unparsable
one leaves the edges of `a.json` and `c.json` untouched and in order, and
the invalid file contributes nothing. -/
theorem C6_merge_isolation_witness :
    (merge_edge_files [("a.json", FileData.parsed exampleRecordA),
        ("b.json", FileData.parseError),
        ("c.json", FileData.parsed exampleRecordB)] false false).1.edges
        = (mergeLoop false [("a.json", FileData.parsed exampleRecordA)]).1.edges
            ++ (mergeLoop false [("c.json", FileData.parsed exampleRecordB)]).1.edges ∧
    (merge_edge_files [("a.json", FileData.parsed exampleRecordA),
        ("b.json", FileData.parsed exampleRecordB),
        ("c.json", FileData.parsed exampleRecordB)] false false).1.edges
        = (mergeLoop false [("a.json", FileData.parsed exampleRecordA)]).1.edges
            ++ (recordEdges (FileData.parsed exampleRecordB)
                ++ (mergeLoop false [("c.json", FileData.parsed exampleRecordB)]).1.edges) :=
  C6_merge_isolation false false
    [("a.json", FileData.parsed exampleRecordA)]
    [("c.json", FileData.parsed exampleRecordB)]
    [("a.json", FileData.parsed exampleRecordA), ("b.json", FileData.parsed exampleRecordB),
     ("c.json", FileData.parsed exampleRecordB)]
    [("a.json", FileData.parsed exampleRecordA), ("b.json", FileData.parseError),
     ("c.json", FileData.parsed exampleRecordB)]
    "b.json" "b.json" (FileData.parsed exampleRecordB) FileData.parseError
    (by rfl) (by rfl) (by rfl) (by decide)

/-- C7: for an existing input directory, `main` always writes the merged
output assembled from the valid files before exiting, and the exit code is
non-zero exactly when at least one input file was invalid. -/
theorem C7_exit_code_contract (files : List (String × FileData)) (v vb : Bool) :
    ∃ c, main_run files v vb =
        [MainEvent.wroteOutput (merge_edge_files files v vb).1, MainEvent.exited c] ∧
      (c ≠ 0 ↔ 1 ≤ (merge_edge_files files v vb).2.files_invalid) := by
  refine ⟨if (merge_edge_files files v vb).2.files_invalid > 0 then 1 else 0, rfl, ?_⟩
  by_cases h : (merge_edge_files files v vb).2.files_invalid > 0
  · simp only [if_pos h]
    omega
  · simp only [if_neg h]
    omega

/-- The per-edge checks succeed exactly on objects carrying `source`,
`target`, and an allowed `type`. -/
theorem edgeErrors_nil_iff (i : Nat) (e : Json) :
    (edgeErrors i e = [] ↔ goodEdgeB e = true) := by
  cases e with
  | obj fs =>
    rcases hty : lookupKey fs "type" with _ | t
    · rcases hs : lookupKey fs "source" with _ | vs <;>
        rcases ht : lookupKey fs "target" with _ | vt <;>
        simp [edgeErrors, goodEdgeB, hs, ht, hty]
    · rcases hs : lookupKey fs "source" with _ | vs <;>
        rcases ht : lookupKey fs "target" with _ | vt <;>
        cases ha : isAllowedType t <;>
        simp [edgeErrors, goodEdgeB, hs, ht, hty, ha]
  | null => simp [edgeErrors, goodEdgeB]
  | bool b => simp [edgeErrors, goodEdgeB]
  | num n => simp [edgeErrors, goodEdgeB]
  | str s => simp [edgeErrors, goodEdgeB]
  | arr es => simp [edgeErrors, goodEdgeB]

/-- The edges loop reports no error exactly when every edge passes the
per-edge checks. -/
theorem edgesErrors_nil_iff (es : List Json) :
    ∀ i, (edgesErrors i es = [] ↔ ∀ e ∈ es, goodEdgeB e = true) := by
  induction es with
  | nil => simp [edgesErrors]
  | cons e es ih =>
    intro i
    simp [edgesErrors, edgeErrors_nil_iff i e, ih (i + 1)]

/-- Characterization of a valid record with an `edges` array: the `source`
checks pass and every edge passes the per-edge checks. -/
theorem valid_record_iff (fs : List (String × Json)) (es : List Json)
    (h : lookupKey fs "edges" = some (.arr es)) :
    ((validate_edge_file (.parsed (.obj fs))).2 = [] ↔
      (sourceErrors fs = [] ∧ ∀ e ∈ es, goodEdgeB e = true)) := by
  have hef : edgesFieldErrors fs = edgesErrors 0 es := by
    simp [edgesFieldErrors, h]
  by_cases hc : (sourceErrors fs ++ edgesFieldErrors fs).isEmpty
  · rw [validate_edge_file, if_pos hc]
    rw [List.isEmpty_iff, List.append_eq_nil, hef] at hc
    constructor
    · intro _
      exact ⟨hc.1, (edgesErrors_nil_iff es 0).mp hc.2⟩
    · intro _
      rfl
  · rw [validate_edge_file, if_neg hc]
    rw [List.isEmpty_iff, List.append_eq_nil, hef] at hc
    constructor
    · intro habs
      exact absurd (show sourceErrors fs ++ edgesFieldErrors fs = [] from habs)
        (by rw [List.append_eq_nil, hef]; exact hc)
    · intro hok
      exact absurd ⟨hok.1, (edgesErrors_nil_iff es 0).mpr hok.2⟩ hc

/-- C5 (as stated) fails: a record whose edge has empty-string `source`
and `target` passes structural validation, is counted valid, and its edge
is merged — emptiness is never checked. -/
theorem C5_edge_field_validation_counterexample :
    (validate_edge_file (FileData.parsed emptySourceRecord)).2 = [] ∧
    (merge_edge_files [("edges1.json", FileData.parsed emptySourceRecord)]
        false false).2.files_invalid = 0 ∧
    (merge_edge_files [("edges1.json", FileData.parsed emptySourceRecord)]
        false false).2.files_valid = 1 ∧
    (merge_edge_files [("edges1.json", FileData.parsed emptySourceRecord)]
        false false).1.edges
      = [.obj [("source", .str ""), ("target", .str ""), ("type", .str "file")]] :=
  ⟨rfl, rfl, rfl, rfl⟩

/-- C5 (amended): the validator checks key *presence* and the `type`
enumeration, not emptiness.  For a record with an `edges` array: it
validates cleanly iff its `source` checks pass and every edge is an object
carrying `source`, `target`, and an allowed `type`; and any record with an
edge failing those presence/enumeration checks is rejected, counted
invalid by the merge, and contributes zero edges to the merged list. -/
theorem C5_edge_field_validation (fs : List (String × Json)) (es : List Json)
    (h : lookupKey fs "edges" = some (.arr es)) :
    ((validate_edge_file (.parsed (.obj fs))).2 = [] ↔
        (sourceErrors fs = [] ∧ ∀ e ∈ es, goodEdgeB e = true)) ∧
    (∀ e ∈ es, goodEdgeB e = false →
      (validate_edge_file (.parsed (.obj fs))).2 ≠ [] ∧
      ∀ (v : Bool) (A B : List (String × FileData)) (n : String),
        (mergeLoop v (A ++ (n, .parsed (.obj fs)) :: B)).1.edges
            = (mergeLoop v A).1.edges ++ (mergeLoop v B).1.edges ∧
        (mergeLoop v (A ++ (n, .parsed (.obj fs)) :: B)).2.files_invalid
            = (mergeLoop v A).2.files_invalid + (mergeLoop v B).2.files_invalid + 1) := by
  have hiff := valid_record_iff fs es h
  refine ⟨hiff, ?_⟩
  intro e he hbad
  have hne : (validate_edge_file (.parsed (.obj fs))).2 ≠ [] := by
    intro hv
    have := (hiff.mp hv).2 e he
    rw [hbad] at this
    exact absurd this (by simp)
  refine ⟨hne, ?_⟩
  intro v A B n
  constructor
  · rw [(mergeLoop_append v A ((n, .parsed (.obj fs)) :: B)).1,
      mergeLoop_cons_invalid v n _ B hne]
  · rw [(mergeLoop_append v A ((n, .parsed (.obj fs)) :: B)).2,
      mergeLoop_cons_invalid v n _ B hne]
    simp
    omega

/-- C5 witness: a record whose single edge lacks `target` and `type` is
rejected, counted invalid, and contributes no edge next to a valid
file. -/
theorem C5_edge_field_validation_witness :
    (validate_edge_file (.parsed (.obj missingTargetFields))).2 ≠ [] ∧
    (mergeLoop false ([("a.json", FileData.parsed exampleRecordA)]
        ++ ("b.json", FileData.parsed (.obj missingTargetFields)) :: [])).1.edges
        = (mergeLoop false [("a.json", FileData.parsed exampleRecordA)]).1.edges
          ++ (mergeLoop false []).1.edges ∧
    (mergeLoop false ([("a.json", FileData.parsed exampleRecordA)]
        ++ ("b.json", FileData.parsed (.obj missingTargetFields)) :: [])).2.files_invalid
        = (mergeLoop false [("a.json", FileData.parsed exampleRecordA)]).2.files_invalid
          + (mergeLoop false ([] : List (String × FileData))).2.files_invalid + 1 := by
  have h := (C5_edge_field_validation missingTargetFields [missingTargetEdge] rfl).2
    missingTargetEdge (List.mem_singleton.mpr rfl) (by rfl)
  exact ⟨h.1, (h.2 false [("a.json", FileData.parsed exampleRecordA)] [] "b.json").1,
    (h.2 false [("a.json", FileData.parsed exampleRecordA)] [] "b.json").2⟩

/-! ## Lemmas about the aggregation -/

/-- A `'.'` part is skipped by the walk. -/
theorem walkStep_dot (idx : String → Option Nat) (f : DocTypeFilter) (st : CumState) :
    walkStep idx f st "." = st := by
  simp [walkStep]

/-- The walk over a part list only sees its non-`'.'` parts. -/
theorem foldl_walkStep_dropDots (idx : String → Option Nat) (f : DocTypeFilter) :
    ∀ (l : List String) (st : CumState),
      l.foldl (walkStep idx f) st = (dropDots l).foldl (walkStep idx f) st := by
  intro l
  induction l with
  | nil => intro st; rfl
  | cons p rest ih =>
    intro st
    by_cases hp : p = "."
    · subst hp
      simp only [List.foldl_cons, walkStep_dot, dropDots, if_pos rfl]
      exact ih st
    · simp only [List.foldl_cons, dropDots, if_neg hp]
      exact ih (walkStep idx f st p)

/-- One directory check never decreases the accumulated total. -/
theorem total_le_dirDocCheck (idx : String → Option Nat) (f : DocTypeFilter)
    (d : String) (st : CumState) : st.total ≤ (dirDocCheck idx f d st).total := by
  unfold dirDocCheck
  split
  · simp
  · exact Nat.le_refl _

/-- One walk step never decreases the accumulated total. -/
theorem total_le_walkStep (idx : String → Option Nat) (f : DocTypeFilter)
    (st : CumState) (p : String) : st.total ≤ (walkStep idx f st p).total := by
  unfold walkStep
  by_cases hp : p = "."
  · rw [if_pos hp]
  · rw [if_neg hp]
    show st.total ≤ (dirDocCheck idx f _ (dirDocCheck idx f _
      { st with currentPath :=
          if st.currentPath = "." then p else st.currentPath ++ "/" ++ p })).total
    exact Nat.le_trans
      (total_le_dirDocCheck idx f _
        { st with currentPath :=
            if st.currentPath = "." then p else st.currentPath ++ "/" ++ p })
      (total_le_dirDocCheck idx f _ _)

/-- The whole walk never decreases the accumulated total. -/
theorem total_le_foldl (idx : String → Option Nat) (f : DocTypeFilter) :
    ∀ (l : List String) (st : CumState),
      st.total ≤ (l.foldl (walkStep idx f) st).total := by
  intro l
  induction l with
  | nil => intro st; exact Nat.le_refl _
  | cons p rest ih =>
    intro st
    exact Nat.le_trans (total_le_walkStep idx f st p) (ih (walkStep idx f st p))

/-- An ancestor's segment list is a leading part of the descendant's. -/
theorem isAncestorSegs_append :
    ∀ a b : List String, isAncestorSegs a b = true → ∃ r, b = a ++ r := by
  intro a
  induction a with
  | nil => intro b _; exact ⟨b, rfl⟩
  | cons x xs ih =>
    intro b h
    cases b with
    | nil => simp [isAncestorSegs] at h
    | cons y ys =>
      rw [isAncestorSegs] at h
      by_cases hxy : x = y
      · rw [if_pos hxy] at h
        obtain ⟨r, hr⟩ := ih ys h
        exact ⟨r, by rw [hxy, hr]; rfl⟩
      · rw [if_neg hxy] at h
        simp at h

/-- C3: for any agent-doc index and any document-type filter, the
cumulative total at a descendant path is at least that at any of its
ancestors, since the descendant's walk extends the ancestor's by
non-negative contributions. -/
theorem C3_aggregation_monotonicity (idx : String → Option Nat) (f : DocTypeFilter)
    (P Q : String) (h : isAncestorPath P Q = true) :
    (getCumulativeTokens idx f P).1 ≤ (getCumulativeTokens idx f Q).1 := by
  obtain ⟨r, hr⟩ := isAncestorSegs_append _ _ h
  show ((if P = "." then ["."] else splitOnChar '/' P).foldl (walkStep idx f) _).total
      ≤ ((if Q = "." then ["."] else splitOnChar '/' Q).foldl (walkStep idx f) _).total
  rw [foldl_walkStep_dropDots idx f (if P = "." then ["."] else splitOnChar '/' P),
    foldl_walkStep_dropDots idx f (if Q = "." then ["."] else splitOnChar '/' Q)]
  show ((pathSegs P).foldl (walkStep idx f) _).total
      ≤ ((pathSegs Q).foldl (walkStep idx f) _).total
  rw [hr, List.foldl_append]
  exact total_le_foldl idx f r _

/-- C3 witness: with one doc of 800 tokens at `a/CLAUDE.md`, the total at
`a/b` dominates the total at its ancestor `a`. -/
theorem C3_aggregation_monotonicity_witness :
    isAncestorPath "a" "a/b" = true ∧
    (getCumulativeTokens (fun p => if p = "a/CLAUDE.md" then some 800 else none)
        DocTypeFilter.all "a").1
      ≤ (getCumulativeTokens (fun p => if p = "a/CLAUDE.md" then some 800 else none)
        DocTypeFilter.all "a/b").1 :=
  ⟨rfl, C3_aggregation_monotonicity
    (fun p => if p = "a/CLAUDE.md" then some 800 else none)
    DocTypeFilter.all "a" "a/b" rfl⟩

/-- C9: whatever non-increasing pair of ceilings the inputs supply, the
state `updateThresholds` installs has its yellow ceiling strictly above
its green ceiling, so classification never runs under a band order with
yellow ≤ green.  (When both parse and the pair is inverted, the yellow
input is overwritten with `greenVal + 100` and re-parsed.) -/
theorem parseIntOr_some (n d : Int) : parseIntOr (some n) d = if n = 0 then d else n := rfl

theorem C9_threshold_auto_heal (g y : Int) (h : g ≥ y) :
    (updateThresholds (some g) (some y)).green
      < (updateThresholds (some g) (some y)).yellow := by
  simp only [updateThresholds, parseIntOr_some]
  split_ifs <;> simp only [parseIntOr_some] <;> split_ifs <;> omega

/-- C9 witness: the spec's example, green = 2000 and yellow = 1000: the
corrected yellow ceiling is 2100 > 2000. -/
theorem C9_threshold_auto_heal_witness :
    (2000 : Int) ≥ 1000 ∧
    (updateThresholds (some 2000) (some 1000)).green
      < (updateThresholds (some 2000) (some 1000)).yellow ∧
    (updateThresholds (some 2000) (some 1000)).yellow = 2100 ∧
    (updateThresholds (some 2000) (some 1000)).green = 2000 :=
  ⟨by decide, C9_threshold_auto_heal 2000 1000 (by decide), rfl, rfl⟩

/-- C4: evaluation of the tree builder at the divergence point.  A hidden
directory `.claude` containing an agent doc is dropped from the built tree
— the `SKIP_DIRS` membership test at tree.py:124 fires before the
hidden-directory exception at tree.py:127, whose `entry != ".claude"`
carve-out is therefore dead code — while the same content under a
non-hidden name is kept, and another hidden directory `.github` is
likewise skipped. -/
theorem C4_hidden_directory_handling :
    build_tree "proj" true [FS.dir ".claude" true [FS.file "CLAUDE.md" 100 true]]
        = Node.dir "proj" "." [] ∧
    build_tree "proj" true [FS.dir ".github" true [FS.file "CLAUDE.md" 100 true]]
        = Node.dir "proj" "." [] ∧
    build_tree "proj" true [FS.dir "sub" true [FS.file "CLAUDE.md" 100 true]]
        = Node.dir "proj" "."
            [Node.dir "sub" "sub" [Node.file "CLAUDE.md" "sub/CLAUDE.md" true (some 100)]] ∧
    SKIP_DIRS.contains ".claude" = true := by
  refine ⟨?_, ?_, ?_, rfl⟩ <;>
    simp [build_tree, process_dir, process_entries, sortBy, insertBy, SKIP_DIRS,
      startsWithDot, should_skip_file, splitextExt, lowerStr, is_agent_doc,
      AGENT_DOC_PATTERNS, SKIP_EXTENSIONS, relJoin, Node.childrenOf]

end ClaudeTree
